import Mathlib

/-!
Shallow embedding of the `wmm23-ex1` simulator core: machine values,
the instruction set with checked binary arithmetic, per-thread execution
state (`ThreadState`), the memory-subsystem query/step vocabulary, and the
sequentially consistent reference subsystem (`ScMemory`).

Rust `u64` words are modelled as `Nat` with explicit reduction modulo
`2 ^ 64` at the one place the source performs unchecked arithmetic
(`val.0 += 1` in the SC fetch-and-increment handler).  Hash maps keyed by
register/label names are modelled as association lists with unique keys;
registers and labels are identified by their names (`String`), matching the
source's equality-by-name semantics.  Functions that take `&mut` state in
Rust are modelled in state-passing style: they return their `Result`
together with the (possibly mutated) state, so that a failing call's effect
on state is visible in the model.
-/

namespace Wmm

/-- A 64-bit machine word (`value.rs`: `struct Value(pub u64)`). -/
abbrev Value := Nat

/-- `u64::MAX`. -/
def U64_MAX : Nat := 2 ^ 64 - 1

/-- `Value::to_address`: `self.0 as usize` (identity on a 64-bit target). -/
def Value.to_address (v : Value) : Nat := v

/-- Register names (`register.rs` is keyed by name; equality is by name). -/
abbrev Register := String

/-- Label names (`label.rs` is keyed by name; equality is by name). -/
abbrev Label := String

/-- `binop.rs`: the binary operations supported by the machine. -/
inductive BinOp
  | add
  | sub
  | mul
  | div
deriving DecidableEq, Repr

/-- `binop.rs`: `BinOpError`.  `overflow`/`underflow` carry both operands and
the operator; `divisionByZero` carries nothing, exactly as in the source. -/
inductive BinOpError
  | overflow (l r : Value) (op : BinOp)
  | underflow (l r : Value) (op : BinOp)
  | divisionByZero
deriving DecidableEq, Repr

/-- `BinOp::eval`: checked 64-bit arithmetic (`checked_add` and friends). -/
def BinOp.eval (op : BinOp) (l r : Value) : Except BinOpError Value :=
  match op with
  | .add => if l + r ≤ U64_MAX then .ok (l + r) else .error (.overflow l r .add)
  | .sub => if r ≤ l then .ok (l - r) else .error (.underflow l r .sub)
  | .mul => if l * r ≤ U64_MAX then .ok (l * r) else .error (.overflow l r .mul)
  | .div => if r = 0 then .error .divisionByZero else .ok (l / r)

/-- `machine_memory/mod.rs`: memory access modes. -/
inductive AccessMode
  | seqCst
  | rel
  | acq
  | relAcq
  | rlx
deriving DecidableEq, Repr

/-- `instruction.rs`: the instruction set. -/
inductive Instruction
  | set (dest : Register) (value : Value)
  | bop (dest : Register) (binop : BinOp) (src_l src_r : Register)
  | branch (src : Register) (label : Label)
  | load (mode : AccessMode) (addr dest : Register)
  | store (mode : AccessMode) (addr src : Register)
  | cas (mode : AccessMode) (addr expected new_value : Register)
  | fai (mode : AccessMode) (addr dest : Register)
  | fence (mode : AccessMode)
deriving DecidableEq, Repr

/-- `machine_thread/mod.rs`: an optional label paired with an instruction. -/
structure CodeInstruction where
  label : Option Label
  instruction : Instruction
deriving DecidableEq, Repr

/-- `Instruction::used_registers`: the registers an instruction mentions,
in source order. -/
def Instruction.used_registers : Instruction → List Register
  | .set dest _ => [dest]
  | .bop dest _ src_l src_r => [dest, src_l, src_r]
  | .branch src _ => [src]
  | .load _ addr dest => [addr, dest]
  | .store _ addr src => [addr, src]
  | .cas _ addr expected new_value => [addr, expected, new_value]
  | .fai _ addr dest => [addr, dest]
  | .fence _ => []

/-- Association-list model of `FnvHashMap K V`. -/
abbrev AList (K V : Type) := List (K × V)

/-- Map lookup by key. -/
def alookup {K V : Type} [DecidableEq K] : AList K V → K → Option V
  | [], _ => none
  | (k', v') :: t, k => if k = k' then some v' else alookup t k

/-- `HashMap::insert`: store `v` under `k`, returning the previous binding. -/
def ainsert {K V : Type} [DecidableEq K] : AList K V → K → V → Option V × AList K V
  | [], k, v => (none, [(k, v)])
  | (k', v') :: t, k, v =>
    if k = k' then (some v', (k, v) :: t)
    else
      let r := ainsert t k v
      (r.1, (k', v') :: r.2)

/-- `HashMap::get_mut` followed by `*x = val`: update the binding of `k` when
present, reporting whether the key was found. -/
def aupdate {K V : Type} [DecidableEq K] : AList K V → K → V → Option (AList K V)
  | [], _, _ => none
  | (k', v') :: t, k, v =>
    if k = k' then some ((k', v) :: t)
    else (aupdate t k v).map ((k', v') :: ·)

/-- The keys of an association list. -/
def akeys {K V : Type} (m : AList K V) : List K := m.map Prod.fst

/-- `machine_thread/mod.rs`: `ThreadStateCreationError`.  In
`duplicateLabel`, `first` is the address of the later occurrence and
`second` the previously recorded one, exactly as `add_label` builds it. -/
inductive ThreadStateCreationError
  | emptyProgram
  | duplicateLabel (label : Label) (first second : Nat)
deriving DecidableEq, Repr

/-- `machine_thread/mod.rs`: `ThreadStateError`. -/
inductive ThreadStateError
  | unboundRegister (register : Register)
  | unboundLabel (label : Label)
  | pcOutOfRange (address : Nat)
  | binOpError (binop : BinOp) (err : BinOpError)
deriving DecidableEq, Repr

/-- `machine_thread/mod.rs`: per-thread execution state. -/
structure ThreadState where
  reg_map : AList Register Value
  label_map : AList Label Nat
  program : List CodeInstruction
  pc : Nat
deriving DecidableEq, Repr

/-- `ThreadState::add_label`: record `label ↦ addr`, failing if the label was
already bound (naming the new address first and the old one second). -/
def ThreadState.add_label (label_map : AList Label Nat) (label : Label) (addr : Nat) :
    Except ThreadStateCreationError (AList Label Nat) :=
  match ainsert label_map label addr with
  | (some old_addr, _) => .error (.duplicateLabel label addr old_addr)
  | (none, m) => .ok m

/-- The construction loop of `ThreadState::new`: walk the program, binding
every used register to zero and every label to its instruction address. -/
def ThreadState.build : List CodeInstruction → Nat → AList Register Value →
    AList Label Nat →
    Except ThreadStateCreationError (AList Register Value × AList Label Nat)
  | [], _, rm, lm => .ok (rm, lm)
  | ci :: rest, addr, rm, lm =>
    let rm' := ci.instruction.used_registers.foldl (fun m r => (ainsert m r 0).2) rm
    match ci.label with
    | none => ThreadState.build rest (addr + 1) rm' lm
    | some l =>
      match ThreadState.add_label lm l addr with
      | .error e => .error e
      | .ok lm' => ThreadState.build rest (addr + 1) rm' lm'

/-- `ThreadState::new`. -/
def ThreadState.new (program : List CodeInstruction) :
    Except ThreadStateCreationError ThreadState :=
  if program.isEmpty then .error .emptyProgram
  else
    match ThreadState.build program 0 [] [] with
    | .error e => .error e
    | .ok (rm, lm) => .ok ⟨rm, lm, program, 0⟩

/-- `ThreadState::set_register`: write an already-bound register; fails with
`UnboundRegister` (leaving the state untouched) otherwise. -/
def ThreadState.set_register (s : ThreadState) (register : Register) (val : Value) :
    Except ThreadStateError Unit × ThreadState :=
  match aupdate s.reg_map register val with
  | some m => (.ok (), { s with reg_map := m })
  | none => (.error (.unboundRegister register), s)

/-- `ThreadState::get_register`. -/
def ThreadState.get_register (s : ThreadState) (register : Register) :
    Except ThreadStateError Value :=
  match alookup s.reg_map register with
  | some v => .ok v
  | none => .error (.unboundRegister register)

/-- `ThreadState::goto_label`: jump to the address bound to `label`. -/
def ThreadState.goto_label (s : ThreadState) (label : Label) :
    Except ThreadStateError Unit × ThreadState :=
  match alookup s.label_map label with
  | some a => (.ok (), { s with pc := a })
  | none => (.error (.unboundLabel label), s)

/-- `machine_memory/mod.rs`: `MemoryQuery`. -/
inductive MemoryQuery
  | store (addr : Nat) (value : Value) (mode : AccessMode)
  | load (addr : Nat) (dest : Register) (mode : AccessMode)
  | cas (addr : Nat) (expected new_value : Value) (mode : AccessMode)
  | fai (addr : Nat) (dest : Register) (mode : AccessMode)
  | fence (mode : AccessMode)
deriving DecidableEq, Repr

/-- `Instruction::execute`: run one instruction against the thread state,
returning the outcome and the possibly-mutated state. -/
def Instruction.execute (i : Instruction) (state : ThreadState) :
    Except ThreadStateError (Option MemoryQuery) × ThreadState :=
  match i with
  | .set dest value =>
    let r := state.set_register dest value
    (.ok none, r.2)
  | .bop dest binop src_l src_r =>
    match state.get_register src_l with
    | .error e => (.error e, state)
    | .ok val_l =>
      match state.get_register src_r with
      | .error e => (.error e, state)
      | .ok val_r =>
        match binop.eval val_l val_r with
        | .error err => (.error (.binOpError binop err), state)
        | .ok val =>
          match state.set_register dest val with
          | (.error e, s) => (.error e, s)
          | (.ok _, s) => (.ok none, s)
  | .branch src label =>
    match state.get_register src with
    | .error e => (.error e, state)
    | .ok val =>
      if val ≠ 0 then
        match state.goto_label label with
        | (.error e, s) => (.error e, s)
        | (.ok _, s) => (.ok none, s)
      else (.ok none, state)
  | .load mode addr dest =>
    match state.get_register addr with
    | .error e => (.error e, state)
    | .ok a => (.ok (some (.load a.to_address dest mode)), state)
  | .store mode addr src =>
    match state.get_register addr with
    | .error e => (.error e, state)
    | .ok a =>
      match state.get_register src with
      | .error e => (.error e, state)
      | .ok value => (.ok (some (.store a.to_address value mode)), state)
  | .cas mode addr expected new_value =>
    match state.get_register addr with
    | .error e => (.error e, state)
    | .ok a =>
      match state.get_register expected with
      | .error e => (.error e, state)
      | .ok exp =>
        match state.get_register new_value with
        | .error e => (.error e, state)
        | .ok nv => (.ok (some (.cas a.to_address exp nv mode)), state)
  | .fai mode addr dest =>
    match state.get_register addr with
    | .error e => (.error e, state)
    | .ok a => (.ok (some (.fai a.to_address dest mode)), state)
  | .fence mode => (.ok (some (.fence mode)), state)

/-- `ThreadState::step`: fetch the instruction at `pc`, advance `pc` by one,
then execute the instruction. -/
def ThreadState.step (s : ThreadState) :
    Except ThreadStateError (Option MemoryQuery) × ThreadState :=
  match s.program[s.pc]? with
  | none => (.error (.pcOutOfRange s.pc), s)
  | some ci => ci.instruction.execute { s with pc := s.pc + 1 }

/-- `sc.rs`: the SC subsystem's independent-step type is uninhabited. -/
inductive IndependentStep

/-- `sc.rs`: the SC subsystem's implementation-specific error type is
uninhabited. -/
inductive ScError

/-- `machine_memory/mod.rs`: `MemoryError`, instantiated at the SC
subsystem's (uninhabited) implementation-specific error type. -/
inductive MemoryError
  | addressOutOfRange (addr : Nat)
  | badTid (tid : Nat)
  | threadStateError (tid : Nat) (error : ThreadStateError)
  | other (e : ScError)

instance : DecidableEq ScError := fun x => nomatch x

instance : DecidableEq MemoryError := fun a b =>
  match a, b with
  | .addressOutOfRange x, .addressOutOfRange y =>
    if h : x = y then .isTrue (by rw [h]) else .isFalse (by simp [h])
  | .badTid x, .badTid y =>
    if h : x = y then .isTrue (by rw [h]) else .isFalse (by simp [h])
  | .threadStateError t x, .threadStateError t' y =>
    if h : t = t' ∧ x = y then .isTrue (by rw [h.1, h.2])
    else .isFalse (by intro hc; cases hc; exact h ⟨rfl, rfl⟩)
  | .other x, _ => nomatch x
  | _, .other y => nomatch y
  | .addressOutOfRange _, .badTid _ => .isFalse (by simp)
  | .addressOutOfRange _, .threadStateError _ _ => .isFalse (by simp)
  | .badTid _, .addressOutOfRange _ => .isFalse (by simp)
  | .badTid _, .threadStateError _ _ => .isFalse (by simp)
  | .threadStateError _ _, .addressOutOfRange _ => .isFalse (by simp)
  | .threadStateError _ _, .badTid _ => .isFalse (by simp)

/-- `machine_memory/mod.rs`: `MemoryStep` for the SC subsystem. -/
inductive MemoryStep
  | independent (s : IndependentStep)
  | threadRequest (tid : Nat) (query : MemoryQuery)

/-- `machine_memory/mod.rs`: `GlobalMemory`, a fixed-length sequence of
value cells. -/
abbrev GlobalMemory := List Value

/-- `GlobalMemory::fetch`: read the cell at `addr`, failing with
`AddressOutOfRange` when out of bounds. -/
def GlobalMemory.fetch (mem : GlobalMemory) (addr : Nat) : Except MemoryError Value :=
  match mem[addr]? with
  | some v => .ok v
  | none => .error (.addressOutOfRange addr)

/-- `machine_memory/mod.rs`: `Threads`, the tid-indexed thread states. -/
abbrev Threads := List ThreadState

/-- `Threads::get_thread_mut`. -/
def Threads.get_thread (threads : Threads) (tid : Nat) : Except MemoryError ThreadState :=
  match threads[tid]? with
  | some t => .ok t
  | none => .error (.badTid tid)

/-- `ScMemory::serve_thread_request`: handle one thread-originated query
against the SC subsystem, returning the outcome together with the
(possibly mutated) thread collection and memory. -/
def ScMemory.serve_thread_request (tid : Nat) (query : MemoryQuery)
    (threads : Threads) (memory : GlobalMemory) :
    Except MemoryError Unit × Threads × GlobalMemory :=
  match threads[tid]? with
  | none => (.error (.badTid tid), threads, memory)
  | some thread_state =>
    match query with
    | .store addr value _ =>
      match memory[addr]? with
      | none => (.error (.addressOutOfRange addr), threads, memory)
      | some _ => (.ok (), threads, memory.set addr value)
    | .load addr dest _ =>
      match memory[addr]? with
      | none => (.error (.addressOutOfRange addr), threads, memory)
      | some val =>
        match thread_state.set_register dest val with
        | (.error error, ts) =>
          (.error (.threadStateError tid error), threads.set tid ts, memory)
        | (.ok _, ts) => (.ok (), threads.set tid ts, memory)
    | .cas addr expected new_value _ =>
      match memory[addr]? with
      | none => (.error (.addressOutOfRange addr), threads, memory)
      | some val =>
        if expected ≠ val then (.ok (), threads, memory)
        else (.ok (), threads, memory.set addr new_value)
    | .fai addr dest _ =>
      match memory[addr]? with
      | none => (.error (.addressOutOfRange addr), threads, memory)
      | some val =>
        match thread_state.set_register dest val with
        | (.error error, ts) =>
          (.error (.threadStateError tid error), threads.set tid ts, memory)
        | (.ok _, ts) =>
          (.ok (), threads.set tid ts, memory.set addr ((val + 1) % 2 ^ 64))
    | .fence _ => (.ok (), threads, memory)

/-- `ScMemory::execute_step` (`impl MemorySubsystem for ScMemory`): an
independent step is impossible; a thread request is served directly. -/
def ScMemory.execute_step (step : MemoryStep) (threads : Threads)
    (memory : GlobalMemory) : Except MemoryError Unit × Threads × GlobalMemory :=
  match step with
  | .independent x => nomatch x
  | .threadRequest tid query => ScMemory.serve_thread_request tid query threads memory

/-! ### Association-list lemmas -/

theorem alookup_ainsert_fst {K V : Type} [DecidableEq K] (m : AList K V) (k : K) (v : V) :
    (ainsert m k v).1 = alookup m k := by
  induction m with
  | nil => rfl
  | cons hd t ih =>
    obtain ⟨k', v'⟩ := hd
    by_cases hk : k = k' <;> simp [ainsert, alookup, hk, ih]

theorem alookup_ainsert {K V : Type} [DecidableEq K] (m : AList K V) (k : K) (v : V)
    (x : K) :
    alookup (ainsert m k v).2 x = if x = k then some v else alookup m x := by
  induction m with
  | nil => by_cases hx : x = k <;> simp [ainsert, alookup, hx]
  | cons hd t ih =>
    obtain ⟨k', v'⟩ := hd
    by_cases hk : k = k'
    · subst hk
      by_cases hx : x = k <;> simp [ainsert, alookup, hx]
    · by_cases hx : x = k'
      · subst hx
        simp [ainsert, hk, alookup]
        exact (if_neg (fun hxk => hk hxk.symm)).symm
      · simp [ainsert, hk, alookup, hx, ih]

theorem aupdate_eq_none {K V : Type} [DecidableEq K] (m : AList K V) (k : K) (v : V) :
    aupdate m k v = none ↔ alookup m k = none := by
  induction m with
  | nil => simp [aupdate, alookup]
  | cons hd t ih =>
    obtain ⟨k', v'⟩ := hd
    by_cases hk : k = k' <;> simp [aupdate, alookup, hk, ih]

theorem aupdate_exists_of_lookup {K V : Type} [DecidableEq K] {m : AList K V} {k : K}
    {w : V} (v : V) (h : alookup m k = some w) :
    ∃ m', aupdate m k v = some m' := by
  cases hm : aupdate m k v with
  | none => rw [aupdate_eq_none] at hm; rw [hm] at h; exact absurd h (by simp)
  | some m' => exact ⟨m', rfl⟩

theorem alookup_aupdate {K V : Type} [DecidableEq K] {m m' : AList K V} {k : K} {v : V}
    (h : aupdate m k v = some m') (x : K) :
    alookup m' x = if x = k then some v else alookup m x := by
  induction m generalizing m' with
  | nil => simp [aupdate] at h
  | cons hd t ih =>
    obtain ⟨k', v'⟩ := hd
    by_cases hk : k = k'
    · subst hk
      simp [aupdate] at h
      subst h
      by_cases hx : x = k <;> simp [alookup, hx]
    · simp [aupdate, hk] at h
      obtain ⟨t', ht', rfl⟩ := h
      by_cases hx : x = k'
      · subst hx
        simp [alookup]
        exact (if_neg (fun hxk => hk hxk.symm)).symm
      · simp [alookup, hx, ih ht']

theorem akeys_aupdate {K V : Type} [DecidableEq K] {m m' : AList K V} {k : K} {v : V}
    (h : aupdate m k v = some m') : akeys m' = akeys m := by
  induction m generalizing m' with
  | nil => simp [aupdate] at h
  | cons hd t ih =>
    obtain ⟨k', v'⟩ := hd
    by_cases hk : k = k'
    · subst hk
      simp [aupdate] at h
      subst h
      rfl
    · simp [aupdate, hk] at h
      obtain ⟨t', ht', rfl⟩ := h
      simp [akeys] at ih ⊢
      exact ih ht'

theorem alookup_foldl_insert_zero (regs : List Register) (rm : AList Register Value)
    (r : Register) :
    alookup (regs.foldl (fun m x => (ainsert m x 0).2) rm) r
      = if r ∈ regs then some 0 else alookup rm r := by
  induction regs generalizing rm with
  | nil => simp
  | cons x rest ih =>
    by_cases hr : r ∈ rest
    · simp [List.foldl_cons, ih, hr]
    · by_cases hx : r = x
      · subst hx
        simp [List.foldl_cons, ih, hr, alookup_ainsert]
      · simp [List.foldl_cons, ih, hr, alookup_ainsert, hx]

/-! ### Shared semantic lemmas -/

/-- General form of the SC fetch-and-increment behaviour: with a valid tid,
an in-range address and a bound destination register, the destination
receives the pre-increment cell value and the cell is replaced by its u64
increment, all in one `execute_step`. -/
theorem sc_fai_spec {tid : Nat} {threads : Threads} {memory : GlobalMemory}
    {addr : Nat} {cell w : Value} {dest : Register} {ts : ThreadState}
    (mode : AccessMode)
    (htid : threads[tid]? = some ts)
    (hmem : memory[addr]? = some cell)
    (hdest : alookup ts.reg_map dest = some w) :
    ∃ ts',
      ScMemory.execute_step (.threadRequest tid (.fai addr dest mode)) threads memory
        = (.ok (), threads.set tid ts', memory.set addr ((cell + 1) % 2 ^ 64)) ∧
      ts'.get_register dest = .ok cell ∧
      ts'.reg_map = (ts.set_register dest cell).2.reg_map := by
  obtain ⟨m, hm⟩ := aupdate_exists_of_lookup cell hdest
  refine ⟨{ ts with reg_map := m }, ?_, ?_, ?_⟩
  · simp [ScMemory.execute_step, ScMemory.serve_thread_request, htid, hmem,
      ThreadState.set_register, hm]
  · simp [ThreadState.get_register, alookup_aupdate hm]
  · simp [ThreadState.set_register, hm]

/-! ### Claim theorems -/

/-- C9: stepping a `ThreadState` whose program counter equals the program
length fails with `PcOutOfRange` (reporting that pc); the end of the program
is an error on the next step attempt, not a distinguished terminal state,
and the state is left unchanged. -/
theorem step_past_end_pc_out_of_range (s : ThreadState)
    (h : s.pc = s.program.length) :
    s.step = (.error (.pcOutOfRange s.pc), s) := by
  have hnone : s.program[s.pc]? = none := List.getElem?_eq_none (by rw [h])
  simp [ThreadState.step, hnone]

/-- Witness for C9 at a one-instruction program whose pc has run past it. -/
theorem step_past_end_pc_out_of_range_witness :
    ThreadState.step ⟨[], [], [⟨none, .fence .seqCst⟩], 1⟩
      = (.error (.pcOutOfRange 1), ⟨[], [], [⟨none, .fence .seqCst⟩], 1⟩) :=
  step_past_end_pc_out_of_range ⟨[], [], [⟨none, .fence .seqCst⟩], 1⟩ (by rfl)

/-- C1: an SC `Cas` thread-request with a valid tid and in-range address:
when the cell equals `expected` the cell is overwritten with `new_value` and
the step succeeds; when it differs, memory is untouched, the thread
collection (hence every register) is untouched, and the step still
succeeds. -/
theorem sc_cas_step_semantics (tid : Nat) (threads : Threads)
    (memory : GlobalMemory) (addr : Nat) (expected new_value cell : Value)
    (mode : AccessMode) (ts : ThreadState)
    (htid : threads[tid]? = some ts)
    (hmem : memory[addr]? = some cell) :
    (cell = expected →
      ScMemory.execute_step (.threadRequest tid (.cas addr expected new_value mode))
          threads memory
        = (.ok (), threads, memory.set addr new_value)) ∧
    (cell ≠ expected →
      ScMemory.execute_step (.threadRequest tid (.cas addr expected new_value mode))
          threads memory
        = (.ok (), threads, memory)) := by
  constructor
  · intro h
    subst h
    simp [ScMemory.execute_step, ScMemory.serve_thread_request, htid, hmem]
  · intro h
    simp [ScMemory.execute_step, ScMemory.serve_thread_request, htid, hmem]
    intro hc
    exact absurd hc.symm h

/-- Witness for C1: `M[0] = 5`; a matching CAS writes `9`, a mismatching CAS
leaves `M[0] = 5`; both succeed. -/
theorem sc_cas_step_semantics_witness :
    (ScMemory.execute_step (.threadRequest 0 (.cas 0 5 9 .seqCst))
        [⟨[], [], [], 0⟩] [5]
      = (.ok (), [⟨[], [], [], 0⟩], [9])) ∧
    (ScMemory.execute_step (.threadRequest 0 (.cas 0 4 9 .seqCst))
        [⟨[], [], [], 0⟩] [5]
      = (.ok (), [⟨[], [], [], 0⟩], [5])) := by
  constructor
  · exact ((sc_cas_step_semantics 0 [⟨[], [], [], 0⟩] [5] 0 5 9 5 .seqCst
      ⟨[], [], [], 0⟩ rfl rfl).1 rfl)
  · exact ((sc_cas_step_semantics 0 [⟨[], [], [], 0⟩] [5] 0 4 9 5 .seqCst
      ⟨[], [], [], 0⟩ rfl rfl).2 (by decide))

/-- C2: an SC `Fai` thread-request with a valid tid, in-range address and
bound destination register delivers the pre-increment cell value to the
destination register and replaces the cell by its (u64) increment, both
within the one `execute_step` call: the single returned state already shows
the register written and the cell incremented. -/
theorem sc_fai_step_semantics (tid : Nat) (threads : Threads)
    (memory : GlobalMemory) (addr : Nat) (cell w : Value) (dest : Register)
    (mode : AccessMode) (ts : ThreadState)
    (htid : threads[tid]? = some ts)
    (hmem : memory[addr]? = some cell)
    (hdest : alookup ts.reg_map dest = some w) :
    ∃ ts',
      ScMemory.execute_step (.threadRequest tid (.fai addr dest mode)) threads memory
        = (.ok (), threads.set tid ts', memory.set addr ((cell + 1) % 2 ^ 64)) ∧
      ts'.get_register dest = .ok cell :=
  match sc_fai_spec mode htid hmem hdest with
  | ⟨ts', h1, h2, _⟩ => ⟨ts', h1, h2⟩

/-- Witness for C2: `M[0] = 7`, `Fai{addr=0, dest=R1}` yields `R1 = 7` and
`M[0] = 8`. -/
theorem sc_fai_step_semantics_witness :
    ∃ ts',
      ScMemory.execute_step (.threadRequest 0 (.fai 0 "R1" .seqCst))
          [⟨[("R1", 0)], [], [], 0⟩] [7]
        = (.ok (), [ts'], ([8] : GlobalMemory)) ∧
      ts'.get_register "R1" = .ok 7 := by
  obtain ⟨ts', h1, h2⟩ := sc_fai_step_semantics 0 [⟨[("R1", 0)], [], [], 0⟩] [7]
    0 7 0 "R1" .seqCst ⟨[("R1", 0)], [], [], 0⟩ rfl rfl (by decide)
  exact ⟨ts', by simpa using h1, h2⟩

/-- C10: an SC `Fai` on a cell holding `u64::MAX` (valid tid, in-range
address, bound destination) returns success, still delivers `u64::MAX` to
the destination register, and stores `(u64::MAX + 1) mod 2^64 = 0` back to
the cell: no overflow error exists on this path. -/
theorem sc_fai_no_overflow_error_at_max (tid : Nat) (threads : Threads)
    (memory : GlobalMemory) (addr : Nat) (w : Value) (dest : Register)
    (mode : AccessMode) (ts : ThreadState)
    (htid : threads[tid]? = some ts)
    (hmem : memory[addr]? = some U64_MAX)
    (hdest : alookup ts.reg_map dest = some w) :
    ∃ ts',
      ScMemory.execute_step (.threadRequest tid (.fai addr dest mode)) threads memory
        = (.ok (), threads.set tid ts', memory.set addr 0) ∧
      ts'.get_register dest = .ok U64_MAX := by
  obtain ⟨ts', h1, h2, _⟩ := sc_fai_spec mode htid hmem hdest
  have hwrap : (U64_MAX + 1) % 2 ^ 64 = 0 := by
    have : U64_MAX + 1 = 2 ^ 64 := by
      simp [U64_MAX]
    rw [this, Nat.mod_self]
  rw [hwrap] at h1
  exact ⟨ts', h1, h2⟩

/-- Witness for C10: `M[0] = u64::MAX`, `Fai{addr=0, dest=R1}` succeeds with
`R1 = u64::MAX` and `M[0] = 0`. -/
theorem sc_fai_no_overflow_error_at_max_witness :
    ∃ ts',
      ScMemory.execute_step (.threadRequest 0 (.fai 0 "R1" .seqCst))
          [⟨[("R1", 0)], [], [], 0⟩] [U64_MAX]
        = (.ok (), [ts'], ([0] : GlobalMemory)) ∧
      ts'.get_register "R1" = .ok U64_MAX := by
  obtain ⟨ts', h1, h2⟩ := sc_fai_no_overflow_error_at_max 0
    [⟨[("R1", 0)], [], [], 0⟩] [U64_MAX] 0 0 "R1" .seqCst
    ⟨[("R1", 0)], [], [], 0⟩ rfl rfl (by decide)
  exact ⟨ts', by simpa using h1, h2⟩

/-- C7: whenever the SC subsystem's `execute_step` returns an error
(`AddressOutOfRange`, `BadTid`, or a wrapped `ThreadStateError`), the
`GlobalMemory` store is returned unmodified: every failing step fails
before mutating any memory cell. -/
theorem sc_error_preserves_memory (st : MemoryStep) (threads : Threads)
    (memory : GlobalMemory) (e : MemoryError)
    (h : (ScMemory.execute_step st threads memory).1 = .error e) :
    (ScMemory.execute_step st threads memory).2.2 = memory := by
  cases st with
  | independent x => exact nomatch x
  | threadRequest tid q =>
    simp only [ScMemory.execute_step] at h ⊢
    unfold ScMemory.serve_thread_request at h ⊢
    cases htid : threads[tid]? with
    | none => simp [htid]
    | some ts =>
      cases q with
      | store addr value mode =>
        cases hmem : memory[addr]? with
        | none => simp [htid, hmem]
        | some v => simp [htid, hmem] at h
      | load addr dest mode =>
        cases hmem : memory[addr]? with
        | none => simp [htid, hmem]
        | some v =>
          rcases hsr : ts.set_register dest v with ⟨r, ts'⟩
          cases r with
          | error err => simp [htid, hmem, hsr]
          | ok u => simp [htid, hmem, hsr] at h
      | cas addr expected new_value mode =>
        cases hmem : memory[addr]? with
        | none => simp [htid, hmem]
        | some v =>
          by_cases hne : expected ≠ v <;> simp [htid, hmem, hne] at h
      | fai addr dest mode =>
        cases hmem : memory[addr]? with
        | none => simp [htid, hmem]
        | some v =>
          rcases hsr : ts.set_register dest v with ⟨r, ts'⟩
          cases r with
          | error err => simp [htid, hmem, hsr]
          | ok u => simp [htid, hmem, hsr] at h
      | fence mode => simp [htid] at h

/-- Witness for C7: a store to address 1000 in a memory of size 4 fails with
`AddressOutOfRange` and leaves the four cells unchanged. -/
theorem sc_error_preserves_memory_witness :
    (ScMemory.execute_step (.threadRequest 0 (.store 1000 5 .seqCst))
        [⟨[], [], [], 0⟩] [1, 2, 3, 4]).1
      = .error (.addressOutOfRange 1000) ∧
    (ScMemory.execute_step (.threadRequest 0 (.store 1000 5 .seqCst))
        [⟨[], [], [], 0⟩] [1, 2, 3, 4]).2.2
      = [1, 2, 3, 4] := by
  constructor
  · rfl
  · exact sc_error_preserves_memory (.threadRequest 0 (.store 1000 5 .seqCst))
      [⟨[], [], [], 0⟩] [1, 2, 3, 4] (.addressOutOfRange 1000) rfl

/-- C5: stepping a thread whose next instruction is `Branch{src,label}` with
`label` bound in the label map: `step` advances `pc` by one before the
instruction executes; a zero `src` falls through (the branch leaves the
whole state, in particular that advanced `pc`, unchanged), while any
nonzero `src` sets `pc` to the absolute address bound to `label`. -/
theorem branch_step_semantics (s : ThreadState) (src : Register) (lbl : Label)
    (ol : Option Label) (a : Nat) (v : Value)
    (hfetch : s.program[s.pc]? = some ⟨ol, .branch src lbl⟩)
    (hlbl : alookup s.label_map lbl = some a)
    (hsrc : alookup s.reg_map src = some v) :
    (v = 0 → s.step = (.ok none, { s with pc := s.pc + 1 })) ∧
    (v ≠ 0 → s.step = (.ok none, { s with pc := a })) := by
  constructor
  · intro hv
    subst hv
    simp [ThreadState.step, hfetch, Instruction.execute, ThreadState.get_register,
      hsrc]
  · intro hv
    simp [ThreadState.step, hfetch, Instruction.execute, ThreadState.get_register,
      hsrc, hv, ThreadState.goto_label, hlbl]

/-- Witness for C5 on the program `[L: Set R0 1; Branch R0 L]` at `pc = 1`:
with `R0 = 0` the step falls through to `pc = 2`; with `R0 = 1` it jumps to
the absolute address `0` bound to `L`. -/
theorem branch_step_semantics_witness :
    ThreadState.step ⟨[("R0", 0)], [("L", 0)],
        [⟨some "L", .set "R0" 1⟩, ⟨none, .branch "R0" "L"⟩], 1⟩
      = (.ok none, ⟨[("R0", 0)], [("L", 0)],
          [⟨some "L", .set "R0" 1⟩, ⟨none, .branch "R0" "L"⟩], 2⟩) ∧
    ThreadState.step ⟨[("R0", 1)], [("L", 0)],
        [⟨some "L", .set "R0" 1⟩, ⟨none, .branch "R0" "L"⟩], 1⟩
      = (.ok none, ⟨[("R0", 1)], [("L", 0)],
          [⟨some "L", .set "R0" 1⟩, ⟨none, .branch "R0" "L"⟩], 0⟩) := by
  constructor
  · exact (branch_step_semantics ⟨[("R0", 0)], [("L", 0)],
      [⟨some "L", .set "R0" 1⟩, ⟨none, .branch "R0" "L"⟩], 1⟩
      "R0" "L" none 0 0 rfl (by decide) (by decide)).1 rfl
  · exact (branch_step_semantics ⟨[("R0", 1)], [("L", 0)],
      [⟨some "L", .set "R0" 1⟩, ⟨none, .branch "R0" "L"⟩], 1⟩
      "R0" "L" none 0 1 rfl (by decide) (by decide)).2 (by decide)

/-- C6 counterexample: the claim says every `Bop` failure names the operator
and both operand values, but the division-by-zero error of `BinOp::eval`
carries no payload at all: dividing 5 by 0 and dividing 7 by 0 produce the
very same error value, so the error cannot name the operands. -/
theorem bop_div_error_payload_counterexample :
    BinOp.eval .div 5 0 = BinOp.eval .div 7 0 ∧
    BinOp.eval .div 5 0 = .error .divisionByZero :=
  ⟨rfl, rfl⟩

/-- C6 (amended): `Bop` evaluates its binop with checked 64-bit unsigned
arithmetic and propagates any failure as a fatal error with the issuing
state unchanged (so the destination register is not written): `Add`/`Mul`
fail with `Overflow` naming the operator and both operands whenever the
mathematical result exceeds `u64::MAX`, `Sub` fails with `Underflow`
naming the operator and both operands when the right operand exceeds the
left, and `Div` fails with `DivisionByZero` carrying no operand payload
when the right operand is zero (the operator is still identified by the
wrapping `BinOpError` variant of `ThreadStateError`). -/
theorem bop_checked_error_spec (s : ThreadState) (dest src_l src_r : Register)
    (vl vr : Value)
    (hl : s.get_register src_l = .ok vl)
    (hr : s.get_register src_r = .ok vr) :
    (U64_MAX < vl + vr →
      Instruction.execute (.bop dest .add src_l src_r) s
        = (.error (.binOpError .add (.overflow vl vr .add)), s)) ∧
    (vl < vr →
      Instruction.execute (.bop dest .sub src_l src_r) s
        = (.error (.binOpError .sub (.underflow vl vr .sub)), s)) ∧
    (U64_MAX < vl * vr →
      Instruction.execute (.bop dest .mul src_l src_r) s
        = (.error (.binOpError .mul (.overflow vl vr .mul)), s)) ∧
    (vr = 0 →
      Instruction.execute (.bop dest .div src_l src_r) s
        = (.error (.binOpError .div .divisionByZero), s)) := by
  refine ⟨fun h => ?_, fun h => ?_, fun h => ?_, fun h => ?_⟩
  · simp [Instruction.execute, hl, hr, BinOp.eval, h.not_le]
  · simp [Instruction.execute, hl, hr, BinOp.eval, h.not_le]
  · simp [Instruction.execute, hl, hr, BinOp.eval, h.not_le]
  · subst h
    simp [Instruction.execute, hl, hr, BinOp.eval]

/-- Witness for C6 (amended): with `A = u64::MAX`, `B = 1`, `Z = 0`, the
addition overflows naming both operands and the operator, and the division
by zero fails with the bare `DivisionByZero`. -/
theorem bop_checked_error_spec_witness :
    Instruction.execute (.bop "D" .add "A" "B")
        ⟨[("A", U64_MAX), ("B", 1), ("Z", 0)], [], [], 0⟩
      = (.error (.binOpError .add (.overflow U64_MAX 1 .add)),
          ⟨[("A", U64_MAX), ("B", 1), ("Z", 0)], [], [], 0⟩) ∧
    Instruction.execute (.bop "D" .div "A" "Z")
        ⟨[("A", U64_MAX), ("B", 1), ("Z", 0)], [], [], 0⟩
      = (.error (.binOpError .div .divisionByZero),
          ⟨[("A", U64_MAX), ("B", 1), ("Z", 0)], [], [], 0⟩) := by
  constructor
  · exact (bop_checked_error_spec ⟨[("A", U64_MAX), ("B", 1), ("Z", 0)], [], [], 0⟩
      "D" "A" "B" U64_MAX 1 rfl rfl).1 (Nat.lt_succ_self _)
  · exact (bop_checked_error_spec ⟨[("A", U64_MAX), ("B", 1), ("Z", 0)], [], [], 0⟩
      "D" "A" "Z" U64_MAX 0 rfl rfl).2.2.2 rfl

/-- The four-instruction end-to-end program of C3:
`[Set R0=10; Set R1=0; Store SeqCst addr=R1 src=R0; Load SeqCst addr=R1 dest=R2]`. -/
def scenario_program : List CodeInstruction :=
  [⟨none, .set "R0" 10⟩,
   ⟨none, .set "R1" 0⟩,
   ⟨none, .store .seqCst "R1" "R0"⟩,
   ⟨none, .load .seqCst "R1" "R2"⟩]

/-- Driver for the C3 scenario: build a fresh `ThreadState` from
`scenario_program`, step it four times against the SC subsystem,
dispatching each returned `MemoryQuery` to `execute_step` in program order
(as thread 0), and finally read register `R2`.  Any unexpected outcome
yields `none`. -/
def run_scenario (memory : GlobalMemory) : Option Value :=
  match ThreadState.new scenario_program with
  | .error _ => none
  | .ok ts0 =>
    match ts0.step with
    | (.ok none, ts1) =>
      match ts1.step with
      | (.ok none, ts2) =>
        match ts2.step with
        | (.ok (some q1), ts3) =>
          match ScMemory.execute_step (.threadRequest 0 q1) [ts3] memory with
          | (.ok _, threads1, mem1) =>
            match threads1[0]? with
            | some ts3' =>
              match ts3'.step with
              | (.ok (some q2), ts4) =>
                match ScMemory.execute_step (.threadRequest 0 q2) [ts4] mem1 with
                | (.ok _, threads2, _) =>
                  match threads2[0]? with
                  | some tsF =>
                    match tsF.get_register "R2" with
                    | .ok v => some v
                    | .error _ => none
                  | none => none
                | _ => none
              | _ => none
            | none => none
          | _ => none
        | _ => none
      | _ => none
    | _ => none

/-- C3: running the four-instruction store/load program on a freshly
constructed `ThreadState` against the SC subsystem with a memory of size at
least 1, dispatching the two memory queries in program order, leaves
register `R2` holding 10. -/
theorem sc_store_load_end_to_end (memory : GlobalMemory)
    (h : 1 ≤ memory.length) :
    run_scenario memory = some 10 := by
  obtain ⟨c, rest, rfl⟩ : ∃ c rest, memory = c :: rest := by
    cases memory with
    | nil => simp at h
    | cons c rest => exact ⟨c, rest, rfl⟩
  simp [run_scenario, scenario_program, ThreadState.new, ThreadState.build,
    ThreadState.add_label, ainsert, Instruction.used_registers, ThreadState.step,
    Instruction.execute, ThreadState.get_register, ThreadState.set_register,
    aupdate, alookup, Value.to_address, ScMemory.execute_step,
    ScMemory.serve_thread_request, ThreadState.goto_label]

/-- Witness for C3 at the concrete memory `[0]`. -/
theorem sc_store_load_end_to_end_witness :
    run_scenario [0] = some 10 :=
  sc_store_load_end_to_end [0] (by decide)

/-! ### Label uniqueness at construction (C4) -/

/-- The label names a program's `CodeInstruction`s carry, in program order. -/
def labelsOf (prog : List CodeInstruction) : List Label :=
  prog.filterMap CodeInstruction.label

/-- The label carried by the instruction at address `i`, if any. -/
def labelAt (prog : List CodeInstruction) (i : Nat) : Option Label :=
  (prog[i]?).bind CodeInstruction.label

theorem labelsOf_cons_none {ci : CodeInstruction} {rest : List CodeInstruction}
    (h : ci.label = none) : labelsOf (ci :: rest) = labelsOf rest := by
  simp [labelsOf, List.filterMap_cons, h]

theorem labelsOf_cons_some {ci : CodeInstruction} {rest : List CodeInstruction}
    {l : Label} (h : ci.label = some l) :
    labelsOf (ci :: rest) = l :: labelsOf rest := by
  simp [labelsOf, List.filterMap_cons, h]

/-- The construction loop succeeds exactly when the remaining labels are
pairwise distinct and none of them is already bound in the label map. -/
theorem build_isOk_iff (prog : List CodeInstruction) (addr : Nat)
    (rm : AList Register Value) (lm : AList Label Nat) :
    (ThreadState.build prog addr rm lm).isOk
      ↔ (labelsOf prog).Nodup ∧ ∀ l ∈ labelsOf prog, alookup lm l = none := by
  induction prog generalizing addr rm lm with
  | nil =>
    simp [ThreadState.build, labelsOf, Except.isOk, Except.toBool]
  | cons ci rest ih =>
    cases hcl : ci.label with
    | none =>
      rw [labelsOf_cons_none hcl]
      simp only [ThreadState.build, hcl]
      exact ih (addr + 1) _ lm
    | some l0 =>
      rw [labelsOf_cons_some hcl]
      simp only [ThreadState.build, hcl, ThreadState.add_label]
      cases hlk : alookup lm l0 with
      | some old =>
        have hfst : (ainsert lm l0 addr).1 = some old := by
          rw [alookup_ainsert_fst, hlk]
        rcases hins : ainsert lm l0 addr with ⟨fst, lm'⟩
        rw [hins] at hfst
        simp only [] at hfst
        subst hfst
        simp only []
        constructor
        · intro h
          simp [Except.isOk, Except.toBool] at h
        · rintro ⟨-, hall⟩
          have := hall l0 (List.mem_cons_self _ _)
          rw [hlk] at this
          exact absurd this (by simp)
      | none =>
        have hfst : (ainsert lm l0 addr).1 = none := by
          rw [alookup_ainsert_fst, hlk]
        rcases hins : ainsert lm l0 addr with ⟨fst, lm'⟩
        rw [hins] at hfst
        simp only [] at hfst
        subst hfst
        simp only []
        rw [ih (addr + 1) _ lm']
        have hlm' : ∀ x, alookup lm' x = if x = l0 then some addr else alookup lm x := by
          intro x
          have := alookup_ainsert lm l0 addr x
          rw [hins] at this
          exact this
        simp only [List.nodup_cons, List.mem_cons]
        constructor
        · rintro ⟨hnd, hall⟩
          have hl0 : l0 ∉ labelsOf rest := by
            intro hmem
            have := hall l0 hmem
            rw [hlm' l0, if_pos rfl] at this
            exact absurd this (by simp)
          refine ⟨⟨hl0, hnd⟩, ?_⟩
          intro x hx
          rcases hx with rfl | hx
          · exact hlk
          · have := hall x hx
            have hxl : x ≠ l0 := fun hc => hl0 (hc ▸ hx)
            rw [hlm' x, if_neg hxl] at this
            exact this
        · rintro ⟨⟨hl0, hnd⟩, hall⟩
          refine ⟨hnd, ?_⟩
          intro x hx
          have hxl : x ≠ l0 := fun hc => hl0 (hc ▸ hx)
          rw [hlm' x, if_neg hxl]
          exact hall x (Or.inr hx)

/-- The construction loop's only error besides the empty program is a
duplicate label. -/
theorem build_error_shape (prog : List CodeInstruction) (addr : Nat)
    (rm : AList Register Value) (lm : AList Label Nat) (e : ThreadStateCreationError)
    (h : ThreadState.build prog addr rm lm = .error e) :
    ∃ l f s, e = .duplicateLabel l f s := by
  induction prog generalizing addr rm lm with
  | nil => simp [ThreadState.build] at h
  | cons ci rest ih =>
    cases hcl : ci.label with
    | none =>
      simp only [ThreadState.build, hcl] at h
      exact ih (addr + 1) _ lm h
    | some l0 =>
      simp only [ThreadState.build, hcl, ThreadState.add_label] at h
      rcases hins : ainsert lm l0 addr with ⟨fst, lm'⟩
      rw [hins] at h
      cases fst with
      | some old =>
        simp at h
        exact ⟨l0, addr, old, h.symm⟩
      | none => exact ih (addr + 1) _ lm' h

/-- A duplicate-label error reported by the construction loop names the
offending label together with the two program addresses that carry it, the
previously recorded one strictly before the newly found one.  `P` is the
whole program; `prog` is its suffix starting at `addr`. -/
theorem build_duplicate_sound (P : List CodeInstruction)
    (prog : List CodeInstruction) (addr : Nat) (rm : AList Register Value)
    (lm : AList Label Nat) (l : Label) (f s : Nat)
    (hsuf : ∀ k, prog[k]? = P[addr + k]?)
    (hinv : ∀ l' a, alookup lm l' = some a → labelAt P a = some l' ∧ a < addr)
    (h : ThreadState.build prog addr rm lm = .error (.duplicateLabel l f s)) :
    labelAt P f = some l ∧ labelAt P s = some l ∧ s < f := by
  induction prog generalizing addr rm lm with
  | nil => simp [ThreadState.build] at h
  | cons ci rest ih =>
    have hPaddr : P[addr]? = some ci := by
      have := hsuf 0
      simpa using this.symm
    cases hcl : ci.label with
    | none =>
      simp only [ThreadState.build, hcl] at h
      refine ih (addr + 1) _ lm ?_ ?_ h
      · intro k
        have := hsuf (k + 1)
        simpa [Nat.add_assoc, Nat.add_comm 1 k] using this
      · intro l' a ha
        obtain ⟨h1, h2⟩ := hinv l' a ha
        exact ⟨h1, Nat.lt_succ_of_lt h2⟩
    | some l0 =>
      have hlblAddr : labelAt P addr = some l0 := by
        simp [labelAt, hPaddr, hcl]
      simp only [ThreadState.build, hcl, ThreadState.add_label] at h
      rcases hins : ainsert lm l0 addr with ⟨fst, lm'⟩
      rw [hins] at h
      cases fst with
      | some old =>
        simp only [Except.error.injEq, ThreadStateCreationError.duplicateLabel.injEq] at h
        obtain ⟨h1, h2, h3⟩ := h
        subst h1
        subst h2
        subst h3
        have hlk : alookup lm l0 = some old := by
          have := alookup_ainsert_fst lm l0 addr
          rw [hins] at this
          exact this.symm
        obtain ⟨h4, h5⟩ := hinv l0 old hlk
        exact ⟨hlblAddr, h4, h5⟩
      | none =>
        refine ih (addr + 1) _ lm' ?_ ?_ h
        · intro k
          have := hsuf (k + 1)
          simpa [Nat.add_assoc, Nat.add_comm 1 k] using this
        · intro l' a ha
          have hlm' := alookup_ainsert lm l0 addr l'
          rw [hins] at hlm'
          rw [hlm'] at ha
          by_cases hl' : l' = l0
          · rw [if_pos hl'] at ha
            simp at ha
            subst ha
            subst hl'
            exact ⟨hlblAddr, Nat.lt_succ_self addr⟩
          · rw [if_neg hl'] at ha
            obtain ⟨h1, h2⟩ := hinv l' a ha
            exact ⟨h1, Nat.lt_succ_of_lt h2⟩

/-- C4: for a nonempty program, `ThreadState::new` succeeds iff no two
`CodeInstruction`s carry the same label name; the empty program fails with
`EmptyProgram`; a duplicate label fails with a `DuplicateLabel` error naming
the label and the two distinct conflicting instruction addresses (both of
which really carry that label, the `second` field strictly before the
`first`). -/
theorem thread_state_new_label_spec (prog : List CodeInstruction) :
    (ThreadState.new ([] : List CodeInstruction) = .error .emptyProgram) ∧
    (prog ≠ [] → ((ThreadState.new prog).isOk ↔ (labelsOf prog).Nodup)) ∧
    (∀ l f s, ThreadState.new prog = .error (.duplicateLabel l f s) →
      labelAt prog f = some l ∧ labelAt prog s = some l ∧ s < f) ∧
    (prog ≠ [] → ¬(labelsOf prog).Nodup →
      ∃ l f s, ThreadState.new prog = .error (.duplicateLabel l f s)) := by
  have hnew : ∀ a t, ThreadState.new (a :: t)
      = (match ThreadState.build (a :: t) 0 [] [] with
        | .error e => .error e
        | .ok (rm, lm) => .ok ⟨rm, lm, a :: t, 0⟩) := by
    intro a t
    rfl
  refine ⟨rfl, ?_, ?_, ?_⟩
  · intro h
    obtain ⟨a, t, rfl⟩ : ∃ a t, prog = a :: t := by
      cases prog with
      | nil => exact absurd rfl h
      | cons a t => exact ⟨a, t, rfl⟩
    have hok : (ThreadState.new (a :: t)).isOk
        = (ThreadState.build (a :: t) 0 [] []).isOk := by
      rw [hnew a t]
      cases ThreadState.build (a :: t) 0 [] [] with
      | error e => rfl
      | ok p => rcases p with ⟨rm, lm⟩; rfl
    rw [hok, build_isOk_iff]
    simp [alookup]
  · intro l f s h
    by_cases hp : prog = []
    · subst hp
      simp [ThreadState.new] at h
    · obtain ⟨a, t, rfl⟩ : ∃ a t, prog = a :: t := by
        cases prog with
        | nil => exact absurd rfl hp
        | cons a t => exact ⟨a, t, rfl⟩
      rw [hnew a t] at h
      cases hb : ThreadState.build (a :: t) 0 [] [] with
      | error e =>
        rw [hb] at h
        simp only [Except.error.injEq] at h
        subst h
        exact build_duplicate_sound (a :: t) (a :: t) 0 [] [] l f s
          (by intro k; rw [Nat.zero_add])
          (by intro l' a' ha'; simp [alookup] at ha') hb
      | ok p =>
        rcases p with ⟨rm, lm⟩
        rw [hb] at h
        simp at h
  · intro hp hnd
    obtain ⟨a, t, rfl⟩ : ∃ a t, prog = a :: t := by
      cases prog with
      | nil => exact absurd rfl hp
      | cons a t => exact ⟨a, t, rfl⟩
    rw [hnew a t]
    cases hb : ThreadState.build (a :: t) 0 [] [] with
    | error e =>
      obtain ⟨l, f, s, rfl⟩ := build_error_shape (a :: t) 0 [] [] e hb
      exact ⟨l, f, s, rfl⟩
    | ok p =>
      have hok : (ThreadState.build (a :: t) 0 [] []).isOk := by
        rw [hb]
        rfl
      rw [build_isOk_iff] at hok
      exact absurd hok.1 hnd

/-- Witness for C4: the two-instruction program `[L: Fence; L: Fence]` fails
with `DuplicateLabel "L" 1 0`, both addresses really carry `L`, and the
duplicate-free singleton program constructs successfully. -/
theorem thread_state_new_label_spec_witness :
    (ThreadState.new [⟨some "L", .fence .seqCst⟩, ⟨some "L", .fence .seqCst⟩]
      = .error (.duplicateLabel "L" 1 0)) ∧
    labelAt [⟨some "L", .fence .seqCst⟩, ⟨some "L", .fence .seqCst⟩] 1 = some "L" ∧
    labelAt [⟨some "L", .fence .seqCst⟩, ⟨some "L", .fence .seqCst⟩] 0 = some "L" ∧
    (0 : Nat) < 1 ∧
    (ThreadState.new [⟨some "L", .fence .seqCst⟩]).isOk := by
  refine ⟨rfl, ?_, ?_, ?_, ?_⟩
  · exact ((thread_state_new_label_spec
      [⟨some "L", .fence .seqCst⟩, ⟨some "L", .fence .seqCst⟩]).2.2.1
      "L" 1 0 rfl).1
  · exact ((thread_state_new_label_spec
      [⟨some "L", .fence .seqCst⟩, ⟨some "L", .fence .seqCst⟩]).2.2.1
      "L" 1 0 rfl).2.1
  · exact ((thread_state_new_label_spec
      [⟨some "L", .fence .seqCst⟩, ⟨some "L", .fence .seqCst⟩]).2.2.1
      "L" 1 0 rfl).2.2
  · exact ((thread_state_new_label_spec [⟨some "L", .fence .seqCst⟩]).2.1
      (by simp)).mpr (by simp [labelsOf, List.filterMap])

/-! ### Register binding at construction and key preservation (C8) -/

/-- Every register name referenced anywhere in a program, in program
order. -/
def used_registers_of (prog : List CodeInstruction) : List Register :=
  prog.foldr (fun ci acc => ci.instruction.used_registers ++ acc) []

theorem mem_used_registers_of_cons {r : Register} {ci : CodeInstruction}
    {rest : List CodeInstruction} :
    r ∈ used_registers_of (ci :: rest)
      ↔ r ∈ ci.instruction.used_registers ∨ r ∈ used_registers_of rest := by
  simp [used_registers_of]

/-- After a successful construction pass, the register map binds exactly
the registers inserted so far: those used by the processed program (at
zero) on top of the initial map. -/
theorem build_reg_lookup (prog : List CodeInstruction) (addr : Nat)
    (rm : AList Register Value) (lm : AList Label Nat)
    (rm' : AList Register Value) (lm' : AList Label Nat)
    (h : ThreadState.build prog addr rm lm = .ok (rm', lm')) (r : Register) :
    alookup rm' r = if r ∈ used_registers_of prog then some 0 else alookup rm r := by
  induction prog generalizing addr rm lm with
  | nil =>
    simp only [ThreadState.build, Except.ok.injEq, Prod.mk.injEq] at h
    obtain ⟨rfl, rfl⟩ := h
    simp [used_registers_of]
  | cons ci rest ih =>
    have hstep : ∀ lm2, ThreadState.build rest (addr + 1)
          (ci.instruction.used_registers.foldl (fun m x => (ainsert m x 0).2) rm) lm2
          = .ok (rm', lm') →
        alookup rm' r
          = if r ∈ used_registers_of (ci :: rest) then some 0 else alookup rm r := by
      intro lm2 h2
      rw [ih (addr + 1) _ lm2 h2]
      rw [alookup_foldl_insert_zero]
      by_cases h1 : r ∈ used_registers_of rest
      · simp [h1, mem_used_registers_of_cons]
      · by_cases h0 : r ∈ ci.instruction.used_registers
        · simp [h1, h0, mem_used_registers_of_cons]
        · simp [h1, h0, mem_used_registers_of_cons]
    cases hcl : ci.label with
    | none =>
      simp only [ThreadState.build, hcl] at h
      exact hstep lm h
    | some l0 =>
      simp only [ThreadState.build, hcl, ThreadState.add_label] at h
      rcases hins : ainsert lm l0 addr with ⟨fst, lm2⟩
      rw [hins] at h
      cases fst with
      | some old => simp at h
      | none => exact hstep lm2 h

/-- `set_register` never changes which registers are bound. -/
theorem set_register_keys (t : ThreadState) (r : Register) (v : Value) :
    akeys ((t.set_register r v).2).reg_map = akeys t.reg_map := by
  unfold ThreadState.set_register
  cases hu : aupdate t.reg_map r v with
  | none => rfl
  | some m => simpa using akeys_aupdate hu

/-- `goto_label` never changes which registers are bound. -/
theorem goto_label_keys (t : ThreadState) (l : Label) :
    akeys ((t.goto_label l).2).reg_map = akeys t.reg_map := by
  unfold ThreadState.goto_label
  cases alookup t.label_map l <;> rfl

/-- Executing any instruction never changes which registers are bound. -/
theorem execute_keys (i : Instruction) (s : ThreadState) :
    akeys ((i.execute s).2).reg_map = akeys s.reg_map := by
  cases i with
  | set dest value =>
    simp only [Instruction.execute]
    exact set_register_keys s dest value
  | bop dest binop src_l src_r =>
    cases hl : s.get_register src_l with
    | error e => simp [Instruction.execute, hl]
    | ok vl =>
      cases hr : s.get_register src_r with
      | error e => simp [Instruction.execute, hl, hr]
      | ok vr =>
        cases he : binop.eval vl vr with
        | error err => simp [Instruction.execute, hl, hr, he]
        | ok v =>
          rcases hsr : s.set_register dest v with ⟨res, s'⟩
          have hk := set_register_keys s dest v
          rw [hsr] at hk
          cases res <;> simpa [Instruction.execute, hl, hr, he, hsr] using hk
  | branch src label =>
    cases hv : s.get_register src with
    | error e => simp [Instruction.execute, hv]
    | ok v =>
      by_cases h0 : v ≠ 0
      · rcases hgl : s.goto_label label with ⟨res, s'⟩
        have hk := goto_label_keys s label
        rw [hgl] at hk
        cases res <;> simpa [Instruction.execute, hv, h0, hgl] using hk
      · simp [Instruction.execute, hv, h0]
  | load mode addr dest =>
    cases ha : s.get_register addr <;> simp [Instruction.execute, ha]
  | store mode addr src =>
    cases ha : s.get_register addr with
    | error e => simp [Instruction.execute, ha]
    | ok a => cases hs : s.get_register src <;> simp [Instruction.execute, ha, hs]
  | cas mode addr expected new_value =>
    cases ha : s.get_register addr with
    | error e => simp [Instruction.execute, ha]
    | ok a =>
      cases hx : s.get_register expected with
      | error e => simp [Instruction.execute, ha, hx]
      | ok ev =>
        cases hn : s.get_register new_value <;> simp [Instruction.execute, ha, hx, hn]
  | fai mode addr dest =>
    cases ha : s.get_register addr <;> simp [Instruction.execute, ha]
  | fence mode => rfl

/-- `step` never changes which registers are bound. -/
theorem step_keys (t : ThreadState) :
    akeys ((t.step).2).reg_map = akeys t.reg_map := by
  unfold ThreadState.step
  cases t.program[t.pc]? with
  | none => rfl
  | some ci =>
    have := execute_keys ci.instruction { t with pc := t.pc + 1 }
    simpa using this

/-- The SC subsystem never changes which registers are bound in any
thread. -/
theorem sc_execute_step_keys (st : MemoryStep) (threads : Threads)
    (memory : GlobalMemory) (i : Nat) :
    ((ScMemory.execute_step st threads memory).2.1[i]?).map (fun t => akeys t.reg_map)
      = (threads[i]?).map (fun t => akeys t.reg_map) := by
  cases st with
  | independent x => exact nomatch x
  | threadRequest tid q =>
    simp only [ScMemory.execute_step]
    unfold ScMemory.serve_thread_request
    cases htid : threads[tid]? with
    | none => simp [htid]
    | some ts =>
      have hset : ∀ (ts' : ThreadState), akeys ts'.reg_map = akeys ts.reg_map →
          ((threads.set tid ts')[i]?).map (fun t => akeys t.reg_map)
            = (threads[i]?).map (fun t => akeys t.reg_map) := by
        intro ts' hk
        rw [List.getElem?_set']
        by_cases hi : tid = i
        · subst hi
          rw [if_pos rfl, htid]
          simp [hk]
        · rw [if_neg hi]
      cases q with
      | store addr value mode =>
        cases hmem : memory[addr]? <;> simp [htid, hmem]
      | load addr dest mode =>
        cases hmem : memory[addr]? with
        | none => simp [htid, hmem]
        | some v =>
          rcases hsr : ts.set_register dest v with ⟨res, ts'⟩
          have hk : akeys ts'.reg_map = akeys ts.reg_map := by
            have := set_register_keys ts dest v
            rw [hsr] at this
            exact this
          cases res with
          | error err =>
            simp only [htid, hmem, hsr]
            exact hset ts' hk
          | ok u =>
            simp only [htid, hmem, hsr]
            exact hset ts' hk
      | cas addr expected new_value mode =>
        cases hmem : memory[addr]? with
        | none => simp [htid, hmem]
        | some v => by_cases hne : expected ≠ v <;> simp [htid, hmem, hne]
      | fai addr dest mode =>
        cases hmem : memory[addr]? with
        | none => simp [htid, hmem]
        | some v =>
          rcases hsr : ts.set_register dest v with ⟨res, ts'⟩
          have hk : akeys ts'.reg_map = akeys ts.reg_map := by
            have := set_register_keys ts dest v
            rw [hsr] at this
            exact this
          cases res with
          | error err =>
            simp only [htid, hmem, hsr]
            exact hset ts' hk
          | ok u =>
            simp only [htid, hmem, hsr]
            exact hset ts' hk
      | fence mode => simp [htid]

/-- C8: after `ThreadState::new` succeeds, every register referenced by any
instruction of the program is bound to zero, every register not referenced
anywhere fails both `get_register` and `set_register` with
`UnboundRegister` (with the state untouched), and no later operation
changes which registers are bound: `set_register`, `step` and the SC
subsystem's `execute_step` all preserve each thread's bound-register
set. -/
theorem register_binding_spec :
    (∀ prog ts, ThreadState.new prog = .ok ts →
      (∀ r, r ∈ used_registers_of prog → alookup ts.reg_map r = some 0) ∧
      (∀ r, r ∉ used_registers_of prog →
        ts.get_register r = .error (.unboundRegister r) ∧
        ∀ v, ts.set_register r v = (.error (.unboundRegister r), ts))) ∧
    (∀ (t : ThreadState) (r : Register) (v : Value),
      akeys ((t.set_register r v).2).reg_map = akeys t.reg_map) ∧
    (∀ (t : ThreadState), akeys ((t.step).2).reg_map = akeys t.reg_map) ∧
    (∀ (st : MemoryStep) (threads : Threads) (memory : GlobalMemory) (i : Nat),
      ((ScMemory.execute_step st threads memory).2.1[i]?).map
          (fun t : ThreadState => akeys t.reg_map)
        = (threads[i]?).map (fun t : ThreadState => akeys t.reg_map)) := by
  refine ⟨?_, set_register_keys, step_keys, sc_execute_step_keys⟩
  intro prog ts hnew
  have hprog : ¬prog.isEmpty = true := by
    intro hc
    rw [ThreadState.new, if_pos hc] at hnew
    exact absurd hnew (by simp)
  rw [ThreadState.new, if_neg hprog] at hnew
  rcases hb : ThreadState.build prog 0 [] [] with e | ⟨rm, lm⟩
  · rw [hb] at hnew
    exact absurd hnew (by simp)
  · rw [hb] at hnew
    simp only [Except.ok.injEq] at hnew
    subst hnew
    have hlook := build_reg_lookup prog 0 [] [] rm lm hb
    constructor
    · intro r hr
      have := hlook r
      rw [if_pos hr] at this
      exact this
    · intro r hr
      have hnone : alookup rm r = none := by
        have := hlook r
        rw [if_neg hr] at this
        simpa [alookup] using this
      constructor
      · simp [ThreadState.get_register, hnone]
      · intro v
        have hupd : aupdate rm r v = none := (aupdate_eq_none rm r v).mpr hnone
        simp [ThreadState.set_register, hupd]

/-- Witness for C8 on the program `[Set R0 10]`: `R0` is bound to zero at
construction, while the unmentioned `Z` fails both accessors with
`UnboundRegister`. -/
theorem register_binding_spec_witness :
    alookup (ThreadState.mk [("R0", 0)] [] [⟨none, .set "R0" 10⟩] 0).reg_map "R0"
      = some 0 ∧
    (ThreadState.mk [("R0", 0)] [] [⟨none, .set "R0" 10⟩] 0).get_register "Z"
      = .error (.unboundRegister "Z") := by
  have h := (register_binding_spec.1 [⟨none, .set "R0" 10⟩]
    (ThreadState.mk [("R0", 0)] [] [⟨none, .set "R0" 10⟩] 0) rfl)
  exact ⟨h.1 "R0" (by simp [used_registers_of, Instruction.used_registers]),
    (h.2 "Z" (by simp [used_registers_of, Instruction.used_registers])).1⟩

end Wmm
